import Mathlib

/-!
Verification of the AT-modem driver core (package `at`): the line classifier,
the command/SMS request state machines, the indication router and the
init/escape logic, embedded shallowly from the Go source.

Go strings are byte slices; every byte that matters here is ASCII, so strings
are modelled as `List Char`.
-/

namespace ATDriver

/-- A Go string (byte slice), modelled as a list of characters. -/
abbrev GoStr := List Char

/-- Literal Go strings. -/
def gs (s : String) : GoStr := s.toList

/-- `sub = 0x1a` (Ctrl-Z), the SMS payload terminator. -/
def subChar : Char := Char.ofNat 0x1a

/-- `esc = 0x1b`, the escape byte. -/
def escChar : Char := Char.ofNat 0x1b

/-- `strings.HasPrefix(s, pre)`. -/
def hasPref (s pre : GoStr) : Bool := pre.isPrefixOf s

/-- `strings.IndexAny(s, chars)`: index of the first character of `s` that
occurs in `chars`, `none` when there is none. -/
def indexAny (s : GoStr) (chars : List Char) : Option Nat :=
  match s with
  | [] => none
  | c :: tl => if c ∈ chars then some 0 else (indexAny tl chars).map (· + 1)

/-- `parseCmdID`: the identifier component of the command, the section prior
to any `=` or `?`. -/
def parseCmdID (cmdLine : GoStr) : GoStr :=
  match indexAny cmdLine ['=', '?'] with
  | some idx => cmdLine.take idx
  | none => cmdLine

/-- Received line types (`rxl`). -/
inductive Rxl
  | unknown
  | echoCmdLine
  | info
  | statusOK
  | statusError
  | async
  | smsPrompt
  | connect
  | connectError
deriving DecidableEq

/-- `parseRxLine`: parses a received line and identifies the line type. -/
def parseRxLine (line : GoStr) (cmdID : GoStr) : Rxl :=
  if line = gs "OK" then .statusOK
  else if hasPref line (gs "ERROR") ∨ hasPref line (gs "+CME ERROR:")
      ∨ hasPref line (gs "+CMS ERROR:") then .statusError
  else if hasPref line (cmdID ++ gs ":") then .info
  else if line = gs ">" then .smsPrompt
  else if hasPref line (gs "AT" ++ cmdID) then .echoCmdLine
  else if cmdID = [] ∨ cmdID.head? ≠ some 'D' then .unknown
  else if hasPref line (gs "CONNECT") then .connect
  else if line = gs "BUSY" ∨ line = gs "NO ANSWER"
      ∨ line = gs "NO CARRIER" ∨ line = gs "NO DIALTONE" then .connectError
  else .unknown

/-- The driver's error taxonomy.  Transport write errors are surfaced
verbatim; they are carried by `writeError`. -/
inductive Err
  | closed
  | deadlineExceeded
  | errError
  | cmeError (v : GoStr)
  | cmsError (v : GoStr)
  | connectError (v : GoStr)
  | indicationExists
  | writeError (v : GoStr)
deriving DecidableEq

/-- `unicode.IsSpace` restricted to the ASCII range. -/
def isGoSpace (c : Char) : Bool :=
  c = ' ' ∨ c = '\t' ∨ c = '\n' ∨ c = Char.ofNat 11 ∨ c = Char.ofNat 12 ∨ c = '\r'

/-- `strings.TrimSpace`. -/
def trimSpace (s : GoStr) : GoStr :=
  ((s.dropWhile isGoSpace).reverse.dropWhile isGoSpace).reverse

/-- `newError`: parses a status-error line into the corresponding error.
Returns `none` for a line carrying none of the three error markers (the Go
function returns `nil` there). -/
def newError (line : GoStr) : Option Err :=
  if hasPref line (gs "ERROR") then some .errError
  else if hasPref line (gs "+CMS ERROR:") then some (.cmsError (trimSpace (line.drop 11)))
  else if hasPref line (gs "+CME ERROR:") then some (.cmeError (trimSpace (line.drop 11)))
  else none

/-- `processRxLine`: how a classified line adds to the response of the current
command.  Returns (info line to append, command-complete flag, error). -/
def processRxLine (lt : Rxl) (line : GoStr) : Option GoStr × Bool × Option Err :=
  match lt with
  | .statusOK => (none, true, none)
  | .statusError => (none, false, newError line)
  | .unknown => (some line, false, none)
  | .info => (some line, false, none)
  | .connect => (some line, true, none)
  | .connectError => (none, false, some (.connectError line))
  | _ => (none, false, none)

/-- The modem-facing side of the command loop: the log of byte sequences
written to the transport (one entry per `Write` call, in order) and whether
the escape guard timer is armed (`escGuard != nil`). -/
structure St where
  writes : List GoStr
  guard : Bool
deriving DecidableEq

/-- The byte sequence of an escape write: `"\x1b\r\n"` plus extra bytes. -/
def escapeBytes (extra : GoStr) : GoStr := escChar :: (gs "\r\n" ++ extra)

/-- `escape`: write the escape sequence and arm the escape guard. -/
def escape (extra : GoStr) (st : St) : St :=
  { writes := st.writes ++ [escapeBytes extra], guard := true }

/-- `writeCommand`'s byte sequence: `"AT" + cmd + "\r\n"`. -/
def writeCommandBytes (cmd : GoStr) : GoStr := gs "AT" ++ cmd ++ gs "\r\n"

/-- `writeSMSCommand`'s byte sequence: `"AT" + cmd + "\r"` (no LF). -/
def writeSMSCommandBytes (cmd : GoStr) : GoStr := gs "AT" ++ cmd ++ gs "\r"

/-- `writeSMS`'s byte sequence: the payload followed by Ctrl-Z. -/
def writeSMSBytes (sms : GoStr) : GoStr := sms ++ [subChar]

/-- One event observed by a request's select loop: a line arriving on the
processor's line channel, that channel closing, or the expiry timer firing. -/
inductive Ev
  | line (l : GoStr)
  | closedCh
  | expiry
deriving DecidableEq

/-- A request's response: the collected info lines and the error, if any. -/
structure Resp where
  info : List GoStr
  err : Option Err
deriving DecidableEq

/-- How a request run ends: a panic (out-of-range string index), blocking
forever on an exhausted input, or resolving the caller with a response. -/
inductive LoopRes
  | panicked
  | blocked
  | resolved (r : Resp)
deriving DecidableEq

/-- The collect loop of `processReq`: named-return accumulation of `info`,
skipping empty lines.  The expiry timer exists only when `timeout >= 0`; with
a negative timeout the timer channel is nil and can never fire, so expiry
events are not observable. -/
def processReqLoop (cmdID : GoStr) (timeout : Int) (acc : List GoStr) :
    List Ev → LoopRes
  | [] => .blocked
  | .expiry :: rest =>
      if 0 ≤ timeout then .resolved ⟨acc, some .deadlineExceeded⟩
      else processReqLoop cmdID timeout acc rest
  | .closedCh :: _ => .resolved ⟨[], some .closed⟩
  | .line l :: rest =>
      if l = [] then processReqLoop cmdID timeout acc rest
      else
        match processRxLine (parseRxLine l cmdID) l with
        | (i, done, perr) =>
          let acc2 := match i with | some s => acc ++ [s] | none => acc
          match perr with
          | some e => .resolved ⟨acc2, some e⟩
          | none =>
            if done then .resolved ⟨acc2, none⟩
            else processReqLoop cmdID timeout acc2 rest

/-- `processReq`: wait out the escape guard (lines drained during the guard
precede `evs`), write the command, then collect.  `wErr` is the result of the
transport write of the command line. -/
def processReq (cmd : GoStr) (wErr : Option Err) (timeout : Int) (evs : List Ev)
    (st : St) : LoopRes × St :=
  let st1 : St := { writes := st.writes ++ [writeCommandBytes cmd], guard := false }
  match wErr with
  | some e => (.resolved ⟨[], some e⟩, st1)
  | none => (processReqLoop (parseCmdID cmd) timeout [] evs, st1)

/-- `processSmsRxLine`: the SMS specialisation of `processRxLine`.  `none`
models the panic of `line[len(line)-1]` on an empty line.  `smsWErr` is the
result of the transport write of the payload, performed at the prompt. -/
def processSmsRxLine (smsWErr : Option Err) (lt : Rxl) (line sms : GoStr)
    (st : St) : Option ((Option GoStr × Bool × Option Err) × St) :=
  match lt with
  | .unknown =>
      match line.getLast? with
      | none => none
      | some c =>
          if c = subChar ∧ hasPref line sms then some ((none, false, none), st)
          else some ((some line, false, none), st)
  | .smsPrompt =>
      let st2 : St := { st with writes := st.writes ++ [writeSMSBytes sms] }
      match smsWErr with
      | some e => some ((none, false, some e), escape [] st2)
      | none => some ((none, false, none), st2)
  | _ => some (processRxLine lt line, st)

/-- The collect loop of `processSmsReq`: as `processReqLoop`, but deadline
expiry first writes a cancel-escape, and lines go through
`processSmsRxLine`. -/
def processSmsReqLoop (sms : GoStr) (smsWErr : Option Err) (cmdID : GoStr)
    (timeout : Int) (acc : List GoStr) (st : St) : List Ev → LoopRes × St
  | [] => (.blocked, st)
  | .expiry :: rest =>
      if 0 ≤ timeout then (.resolved ⟨acc, some .deadlineExceeded⟩, escape [] st)
      else processSmsReqLoop sms smsWErr cmdID timeout acc st rest
  | .closedCh :: _ => (.resolved ⟨acc, some .closed⟩, st)
  | .line l :: rest =>
      if l = [] then processSmsReqLoop sms smsWErr cmdID timeout acc st rest
      else
        match processSmsRxLine smsWErr (parseRxLine l cmdID) l sms st with
        | none => (.panicked, st)
        | some ((i, done, perr), st2) =>
          let acc2 := match i with | some s => acc ++ [s] | none => acc
          match perr with
          | some e => (.resolved ⟨acc2, some e⟩, st2)
          | none =>
            if done then (.resolved ⟨acc2, none⟩, st2)
            else processSmsReqLoop sms smsWErr cmdID timeout acc2 st2 rest

/-- `processSmsReq`: wait out the escape guard, write the first SMS stage,
then collect.  `wErr` is the result of the transport write of the command
line. -/
def processSmsReq (cmd sms : GoStr) (wErr smsWErr : Option Err) (timeout : Int)
    (evs : List Ev) (st : St) : LoopRes × St :=
  let st1 : St := { writes := st.writes ++ [writeSMSCommandBytes cmd], guard := false }
  match wErr with
  | some e => (.resolved ⟨[], some e⟩, st1)
  | none => processSmsReqLoop sms smsWErr (parseCmdID cmd) timeout [] st1 evs

/-- One indication registration: the prefix string and the number of trailing
lines (`Indication.lines = trailing + 1`; `WithTrailingLines l` sets
`lines = l + 1`, the default is `lines = 1`). -/
structure IndEntry where
  pfx : GoStr
  trailing : Nat
deriving DecidableEq

/-- The scan of the indication table against one incoming line (the inner
`for prefix, ind := range a.inds` of `indLoop`).  The Go map is modelled as a
list; each matching entry pulls its trailing lines from the input and its
handler is invoked with the bundle.  Returns the bundles delivered (prefix,
bundle) and the number of input lines consumed, or `none` for the count when
the input channel closed mid-bundle (`indLoop` then returns; bundles already
delivered stand). -/
def scanInds : List IndEntry → GoStr → List GoStr →
    List (GoStr × List GoStr) × Option Nat
  | [], _, _ => ([], some 0)
  | e :: tl, line, input =>
    if hasPref line e.pfx then
      if e.trailing ≤ input.length then
        let d := (e.pfx, line :: input.take e.trailing)
        let (ds, k) := scanInds tl line (input.drop e.trailing)
        (d :: ds, k.map (e.trailing + ·))
      else ([], none)
    else scanInds tl line input

/-- The recursion of `indLoop` over the incoming lines, fuelled (each step
consumes at least the head line, so any fuel at least the input length is
enough).  Returns the delivered bundles and the residual lines sent on to the
command loop.  When the input closes mid-bundle the router exits without
forwarding the matched line. -/
def indLoopGo (tbl : List IndEntry) : Nat → List GoStr →
    List (GoStr × List GoStr) × List GoStr
  | _, [] => ([], [])
  | 0, _ :: _ => ([], [])
  | fuel + 1, line :: rest =>
    match scanInds tbl line rest with
    | (ds, none) => (ds, [])
    | (ds, some k) =>
      let (ds2, outs) := indLoopGo tbl fuel (rest.drop k)
      (ds ++ ds2, line :: outs)

/-- `indLoop` over a fixed table. -/
def indLoopRun (tbl : List IndEntry) (input : List GoStr) :
    List (GoStr × List GoStr) × List GoStr :=
  indLoopGo tbl input.length input

/-- The driver instance as the public operations see it: the closed signal,
the indication table, and the modem-facing write state. -/
structure Driver where
  closed : Bool
  inds : List IndEntry
  st : St
deriving DecidableEq

/-- `Command`: rejected with `ErrClosed` when the closed channel has
signalled (the command loop has exited, so the submission select can only
take the closed branch); otherwise the request runs on the command loop.
`none` as first component models a request that blocks forever. -/
def commandCall (d : Driver) (cmd : GoStr) (wErr : Option Err) (timeout : Int)
    (evs : List Ev) : Option (List GoStr × Option Err) × Driver :=
  if d.closed then (some ([], some .closed), d)
  else
    let (res, st2) := processReq cmd wErr timeout evs d.st
    (match res with
     | .resolved r => some (r.info, r.err)
     | _ => none,
     { d with st := st2 })

/-- `SMSCommand`: as `commandCall`, via `processSmsReq`. -/
def smsCommandCall (d : Driver) (cmd sms : GoStr) (wErr smsWErr : Option Err)
    (timeout : Int) (evs : List Ev) : Option (List GoStr × Option Err) × Driver :=
  if d.closed then (some ([], some .closed), d)
  else
    let (res, st2) := processSmsReq cmd sms wErr smsWErr timeout evs d.st
    (match res with
     | .resolved r => some (r.info, r.err)
     | _ => none,
     { d with st := st2 })

/-- `AddIndication`: `ErrClosed` when closed, `ErrIndicationExists` when the
prefix is registered, otherwise the registration becomes live. -/
def addIndicationCall (d : Driver) (p : GoStr) (trailing : Nat) :
    Option Err × Driver :=
  if d.closed then (some .closed, d)
  else if (d.inds.filter (fun e => e.pfx = p)) ≠ [] then (some .indicationExists, d)
  else (none, { d with inds := d.inds ++ [⟨p, trailing⟩] })

/-- `CancelIndication`: removes the mapping when present; a no-op when the
driver is closed. -/
def cancelIndicationCall (d : Driver) (p : GoStr) : Driver :=
  if d.closed then d
  else { d with inds := d.inds.filter (fun e => ¬ e.pfx = p) }

/-- `Escape`: a no-op when closed, otherwise an escape write on the command
loop. -/
def escapeCall (d : Driver) (extra : GoStr) : Driver :=
  if d.closed then d else { d with st := escape extra d.st }

/-- Every transition of the driver state: the public operations plus the
transport-EOF propagation that closes the driver. -/
inductive Op
  | cmdOp (cmd : GoStr) (wErr : Option Err) (timeout : Int) (evs : List Ev)
  | smsOp (cmd sms : GoStr) (wErr smsWErr : Option Err) (timeout : Int) (evs : List Ev)
  | addIndOp (p : GoStr) (trailing : Nat)
  | cancelIndOp (p : GoStr)
  | escapeOp (extra : GoStr)
  | closeOp

/-- The driver state after one operation. -/
def applyOp (d : Driver) : Op → Driver
  | .cmdOp cmd wErr timeout evs => (commandCall d cmd wErr timeout evs).2
  | .smsOp cmd sms wErr smsWErr timeout evs =>
      (smsCommandCall d cmd sms wErr smsWErr timeout evs).2
  | .addIndOp p trailing => (addIndicationCall d p trailing).2
  | .cancelIndOp p => cancelIndicationCall d p
  | .escapeOp extra => escapeCall d extra
  | .closeOp => { d with closed := true }

/-- The default init command list set by `New`: the single reset command. -/
def defaultInitCmds : List GoStr := [gs "Z"]

/-- `Init`'s error mapping for a failed sub-command. -/
inductive InitRes
  | ok
  | deadline
  | wrapped (cmd : GoStr) (e : Err)
deriving DecidableEq

/-- `Init`'s command loop over (command, that `Command` call's error): issues
each command in order; the first failure short-circuits, `ErrDeadlineExceeded`
passing through unchanged and any other error being wrapped with the command
text.  Returns the commands issued and the result. -/
def initLoop : List (GoStr × Option Err) → List GoStr × InitRes
  | [] => ([], .ok)
  | (c, r) :: tl =>
    match r with
    | none => let (is, res) := initLoop tl ; (c :: is, res)
    | some .deadlineExceeded => ([c], .deadline)
    | some e => ([c], .wrapped c e)

/-- `Init`: first the escape-with-flush (`Escape("\r\n")`), then the command
loop.  Sub-command transport writes happen inside the abstracted `Command`
calls and are not logged here. -/
def initRun (pairs : List (GoStr × Option Err)) (st : St) :
    (List GoStr × InitRes) × St :=
  (initLoop pairs, escape (gs "\r\n") st)

/-- Modelled from the spec: "the command text up to (but excluding) the first
`=` or `?`, whichever comes first; if neither is present, the whole command is
used". -/
def specCmdID (cmd : GoStr) : GoStr :=
  cmd.takeWhile (fun c => !(c == '=' || c == '?'))

/-- Modelled from the spec: the nine ordered classification rules of section
4.4, first match wins. -/
def specParseRxLine (line cmdID : GoStr) : Rxl :=
  if line = gs "OK" then .statusOK
  else if hasPref line (gs "ERROR") ∨ hasPref line (gs "+CME ERROR:")
      ∨ hasPref line (gs "+CMS ERROR:") then .statusError
  else if hasPref line (cmdID ++ gs ":") then .info
  else if line = gs ">" then .smsPrompt
  else if hasPref line (gs "AT" ++ cmdID) then .echoCmdLine
  else if cmdID = [] ∨ ¬ hasPref cmdID (gs "D") then .unknown
  else if hasPref line (gs "CONNECT") then .connect
  else if line = gs "BUSY" ∨ line = gs "NO ANSWER"
      ∨ line = gs "NO CARRIER" ∨ line = gs "NO DIALTONE" then .connectError
  else .unknown

/-- The device-reported error a received line resolves the request with:
`newError` for a `StatusError` line, `ConnectError(line)` for a
`ConnectError` line, nothing otherwise. -/
def stepErr (cmdID line : GoStr) : Option Err :=
  match parseRxLine line cmdID with
  | .statusError => newError line
  | .connectError => some (.connectError line)
  | _ => none

/-- One of the four byte sequences the driver ever writes. -/
def WriteShape (w : GoStr) : Prop :=
  (∃ c, w = writeCommandBytes c) ∨ (∃ c, w = writeSMSCommandBytes c)
  ∨ (∃ s, w = writeSMSBytes s) ∨ (∃ b, w = escapeBytes b)

/-- Whether a request run resolved the caller with `ErrDeadlineExceeded`. -/
def isDeadlineRes : LoopRes → Bool
  | .resolved r => decide (r.err = some .deadlineExceeded)
  | _ => false

/-- The expiry timer wins the `processReq` select: the events preceding the
first resolving event neither terminate nor error, and the first resolver is
the timer (which exists only for a non-negative timeout). -/
def cmdExpiryResolves (cmdID : GoStr) (t : Int) : List Ev → Bool
  | [] => false
  | .expiry :: rest =>
      if 0 ≤ t then true else cmdExpiryResolves cmdID t rest
  | .closedCh :: _ => false
  | .line l :: rest =>
      if l = [] then cmdExpiryResolves cmdID t rest
      else
        match processRxLine (parseRxLine l cmdID) l with
        | (_, done, perr) =>
          if perr.isSome || done then false else cmdExpiryResolves cmdID t rest

/-- As `cmdExpiryResolves`, for the SMS loop (whose per-line step does not
depend on the write log, evaluated here at the empty log). -/
def smsExpiryResolves (sms : GoStr) (swe : Option Err) (cmdID : GoStr)
    (t : Int) : List Ev → Bool
  | [] => false
  | .expiry :: rest =>
      if 0 ≤ t then true else smsExpiryResolves sms swe cmdID t rest
  | .closedCh :: _ => false
  | .line l :: rest =>
      if l = [] then smsExpiryResolves sms swe cmdID t rest
      else
        match processSmsRxLine swe (parseRxLine l cmdID) l sms ⟨[], false⟩ with
        | none => false
        | some ((_, done, perr), _) =>
          if perr.isSome || done then false else smsExpiryResolves sms swe cmdID t rest

/-! ## Sanity checks and theorems -/

example : parseCmdID (gs "INFO=1") = gs "INFO" := by decide

example : parseCmdID (gs "D2") = gs "D2" := by decide

example : parseRxLine (gs "BUSY") (gs "D2") = .connectError := by decide

example : parseRxLine (gs "info1") (gs "D2") = .unknown := by decide

example : parseRxLine (gs "INFO: x") (gs "INFO") = .info := by decide

example : newError (gs "+CMS ERROR: 204") = some (.cmsError (gs "204")) := by decide

example :
    processReq (gs "D2") none 1000000000 [.line (gs "info1"), .line (gs "BUSY")]
      ⟨[], false⟩ =
    (.resolved ⟨[gs "info1"], some (.connectError (gs "BUSY"))⟩,
      ⟨[gs "ATD2\r\n"], false⟩) := by decide

example :
    processReq (gs "INFO=1") none 1000000000
      [.line (gs "info1"), .line (gs "info2"), .line (gs "INFO: info3"),
       .line (gs ""), .line (gs "OK")] ⟨[], false⟩ =
    (.resolved ⟨[gs "info1", gs "info2", gs "INFO: info3"], none⟩,
      ⟨[gs "ATINFO=1\r\n"], false⟩) := by decide

example :
    processSmsReq (gs "SMS") (gs "sms+") none none 1000000000
      [.line (gs ">"), .line (gs "info4"), .line (gs "OK")] ⟨[], false⟩ =
    (.resolved ⟨[gs "info4"], none⟩,
      ⟨[gs "ATSMS\r", gs "sms+" ++ [subChar]], false⟩) := by decide

example :
    processSmsReq (gs "SMS") (gs "sms+") none none 5 [.expiry] ⟨[], false⟩ =
    (.resolved ⟨[], some .deadlineExceeded⟩,
      ⟨[gs "ATSMS\r", escapeBytes []], true⟩) := by decide

theorem scanInds_consumed_le (tbl : List IndEntry) (line : GoStr)
    (input : List GoStr) (k : Nat) (h : (scanInds tbl line input).2 = some k) :
    k ≤ input.length := by
  induction tbl generalizing input k with
  | nil =>
    simp only [scanInds] at h
    injection h with h
    omega
  | cons e tl ih =>
    simp only [scanInds] at h
    split at h
    · split at h
      next hlen =>
        simp only [Option.map_eq_some'] at h
        obtain ⟨k', hk', rfl⟩ := h
        have := ih (input.drop e.trailing) k' hk'
        simp only [List.length_drop] at this
        omega
      next => simp at h
    · exact ih input k h

theorem indLoopGo_fuel (tbl : List IndEntry) (f1 f2 : Nat) (input : List GoStr)
    (h1 : input.length ≤ f1) (h2 : input.length ≤ f2) :
    indLoopGo tbl f1 input = indLoopGo tbl f2 input := by
  induction f1 generalizing f2 input with
  | zero =>
    match input, f2 with
    | [], 0 => rfl
    | [], f2 + 1 => rfl
    | l :: r, _ => simp at h1
  | succ f1 ih =>
    match input, f2 with
    | [], 0 => rfl
    | [], f2 + 1 => rfl
    | l :: r, 0 => simp at h2
    | l :: r, f2 + 1 =>
      simp only [indLoopGo]
      cases hscan : scanInds tbl l r with
      | mk ds k? =>
        cases k? with
        | none => rfl
        | some k =>
          have hk : k ≤ r.length :=
            scanInds_consumed_le tbl l r k (by rw [hscan])
          simp only [List.length_cons] at h1 h2
          have := ih f2 (r.drop k)
            (by simp only [List.length_drop]; omega)
            (by simp only [List.length_drop]; omega)
          dsimp only
          rw [this]

example :
    indLoopRun [⟨gs "foo", 2⟩] [gs "foo:", gs "bar", gs "baz", gs "x"] =
    ([(gs "foo", [gs "foo:", gs "bar", gs "baz"])], [gs "foo:", gs "x"]) := by
  decide

theorem parseCmdID_eq_specCmdID (cmd : GoStr) : parseCmdID cmd = specCmdID cmd := by
  induction cmd with
  | nil => rfl
  | cons c tl ih =>
    by_cases hc : c ∈ ['=', '?']
    · have hb : (!(c == '=' || c == '?')) = false := by
        simp only [List.mem_cons, List.mem_singleton, List.not_mem_nil,
          or_false] at hc
        rcases hc with rfl | rfl <;> simp
      simp [parseCmdID, specCmdID, indexAny, hc, List.takeWhile, hb]
    · have hb : (!(c == '=' || c == '?')) = true := by
        simp only [List.mem_cons, List.mem_singleton, List.not_mem_nil,
          or_false] at hc
        push_neg at hc
        simp [hc.1, hc.2]
      simp only [parseCmdID, specCmdID, indexAny, if_neg hc] at *
      cases hidx : indexAny tl ['=', '?'] with
      | none =>
        simp only [hidx] at ih
        simp only [hidx, Option.map_none']
        rw [List.takeWhile_cons_of_pos (p := fun c => !(c == '=' || c == '?')) hb]
        exact congrArg (c :: .) ih
      | some i =>
        simp only [hidx] at ih
        simp only [hidx, Option.map_some', List.take_succ_cons]
        rw [List.takeWhile_cons_of_pos (p := fun c => !(c == '=' || c == '?')) hb]
        exact congrArg (c :: .) ih

set_option maxRecDepth 4000 in
theorem parseRxLine_eq_specParseRxLine (line cmdID : GoStr) :
    parseRxLine line cmdID = specParseRxLine line cmdID := by
  have h6 : (cmdID = [] ∨ cmdID.head? ≠ some 'D')
      ↔ (cmdID = [] ∨ ¬ hasPref cmdID (gs "D")) := by
    cases cmdID with
    | nil => simp
    | cons c tl =>
      have hpref : hasPref (c :: tl) (gs "D") = (c == 'D') := by
        show List.isPrefixOf ['D'] (c :: tl) = (c == 'D')
        by_cases h : c = 'D'
        · subst h; simp [List.isPrefixOf]
        · simp only [List.isPrefixOf, Bool.and_true]
          have h2 : ¬ 'D' = c := fun hh => h hh.symm
          simp [h, h2]
      simp only [List.cons_ne_nil, false_or, List.head?, ne_eq,
        Option.some.injEq, hpref, Bool.not_eq_true, beq_eq_false_iff_ne]
  unfold parseRxLine specParseRxLine
  simp only [h6]

example : specParseRxLine (gs "NO CARRIER") (specCmdID (gs "D123")) = .connectError := by
  decide

/-- C3: for every received line and command text, the classifier assigns
exactly the class given by the spec's identifier-extraction rule and the nine
ordered classification rules of section 4.4, first match winning. -/
theorem classifier_matches_spec_rules :
    (∀ cmd : GoStr, parseCmdID cmd = specCmdID cmd)
    ∧ (∀ line cmdID : GoStr, parseRxLine line cmdID = specParseRxLine line cmdID) :=
  ⟨parseCmdID_eq_specCmdID, parseRxLine_eq_specParseRxLine⟩

/-- C1 (amended): a request that resolves with a device-reported error
(`StatusError` or, for dial commands, `ConnectError`) returns the info lines
accumulated so far alongside the error — the accumulated info is kept, not
discarded.  Holds for both the `Command` and the `SMSCommand` loop. -/
theorem error_line_resolves_with_accumulated_info :
    ∀ (cmdID : GoStr) (t : Int) (acc : List GoStr) (line : GoStr)
      (rest : List Ev) (sms : GoStr) (swe : Option Err) (st : St) (e : Err),
    line ≠ [] → stepErr cmdID line = some e →
    processReqLoop cmdID t acc (.line line :: rest) = .resolved ⟨acc, some e⟩
    ∧ processSmsReqLoop sms swe cmdID t acc st (.line line :: rest)
        = (.resolved ⟨acc, some e⟩, st) := by
  intro cmdID t acc line rest sms swe st e hne hstep
  unfold stepErr at hstep
  constructor
  · simp only [processReqLoop, if_neg hne]
    cases hlt : parseRxLine line cmdID <;> rw [hlt] at hstep <;>
      simp_all [processRxLine]
  · simp only [processSmsReqLoop, if_neg hne]
    cases hlt : parseRxLine line cmdID <;> rw [hlt] at hstep <;>
      simp_all [processSmsRxLine, processRxLine]

/-- C1 witness: `Command("D2")` with accumulated info `["info1"]` hitting the
line `BUSY` resolves with the accumulated info and `ConnectError("BUSY")`. -/
theorem error_line_resolves_with_accumulated_info_witness :
    processReqLoop (gs "D2") 1000000000 [gs "info1"] [.line (gs "BUSY")]
        = .resolved ⟨[gs "info1"], some (.connectError (gs "BUSY"))⟩
    ∧ processSmsReqLoop (gs "p") none (gs "D2") 1000000000 [gs "info1"]
        ⟨[], false⟩ [.line (gs "BUSY")]
        = (.resolved ⟨[gs "info1"], some (.connectError (gs "BUSY"))⟩, ⟨[], false⟩) :=
  error_line_resolves_with_accumulated_info (gs "D2") 1000000000 [gs "info1"]
    (gs "BUSY") [] (gs "p") none ⟨[], false⟩ (.connectError (gs "BUSY"))
    (by decide) (by decide)

/-- C1 counterexample: `Command("D2")` against a device replying `info1` then
`BUSY` returns info `["info1"]` and `ConnectError("BUSY")` — the info list is
not empty, contrary to the claim that it is discarded. -/
theorem dial_busy_keeps_info_cex :
    (processReq (gs "D2") none 1000000000
        [.line (gs "info1"), .line (gs "BUSY")] ⟨[], false⟩).1
      = .resolved ⟨[gs "info1"], some (.connectError (gs "BUSY"))⟩
    ∧ [gs "info1"] ≠ ([] : List GoStr) := by decide

/-- C6: once the driver's closed signal is set it stays set across every
operation, and every `Command`, `SMSCommand` or `AddIndication` call made when
it is set returns `ErrClosed` leaving the driver (writes and indication
table) untouched. -/
theorem closed_is_monotonic_and_rejects :
    ∀ d : Driver, d.closed = true →
    (∀ op : Op, (applyOp d op).closed = true)
    ∧ (∀ (cmd : GoStr) (wErr : Option Err) (t : Int) (evs : List Ev),
        commandCall d cmd wErr t evs = (some ([], some .closed), d))
    ∧ (∀ (cmd sms : GoStr) (wErr swe : Option Err) (t : Int) (evs : List Ev),
        smsCommandCall d cmd sms wErr swe t evs = (some ([], some .closed), d))
    ∧ (∀ (p : GoStr) (n : Nat), addIndicationCall d p n = (some .closed, d)) := by
  intro d hc
  refine ⟨?_, ?_, ?_, ?_⟩
  · intro op
    cases op <;>
      simp [applyOp, commandCall, smsCommandCall, addIndicationCall,
        cancelIndicationCall, escapeCall, hc]
  · intro cmd wErr t evs
    simp [commandCall, hc]
  · intro cmd sms wErr swe t evs
    simp [smsCommandCall, hc]
  · intro p n
    simp [addIndicationCall, hc]

/-- C6 witness: a closed driver stays closed and rejects calls. -/
theorem closed_is_monotonic_and_rejects_witness :
    (∀ op : Op, (applyOp ⟨true, [], ⟨[], false⟩⟩ op).closed = true)
    ∧ (∀ (cmd : GoStr) (wErr : Option Err) (t : Int) (evs : List Ev),
        commandCall ⟨true, [], ⟨[], false⟩⟩ cmd wErr t evs
          = (some ([], some .closed), ⟨true, [], ⟨[], false⟩⟩))
    ∧ (∀ (cmd sms : GoStr) (wErr swe : Option Err) (t : Int) (evs : List Ev),
        smsCommandCall ⟨true, [], ⟨[], false⟩⟩ cmd sms wErr swe t evs
          = (some ([], some .closed), ⟨true, [], ⟨[], false⟩⟩))
    ∧ (∀ (p : GoStr) (n : Nat),
        addIndicationCall ⟨true, [], ⟨[], false⟩⟩ p n
          = (some .closed, ⟨true, [], ⟨[], false⟩⟩)) :=
  closed_is_monotonic_and_rejects ⟨true, [], ⟨[], false⟩⟩ rfl

/-- C7: `Init` first emits the escape-with-flush (ESC CR LF CR LF), arming
the guard, then issues the configured init commands in order — the default
list being exactly `["Z"]` — stopping at the first failure;
`ErrDeadlineExceeded` from a sub-command is returned unchanged, any other
failure is wrapped with the failing command's text. -/
theorem init_escapes_then_runs_cmds :
    (defaultInitCmds = [gs "Z"])
    ∧ (escapeBytes (gs "\r\n")
        = [Char.ofNat 27, Char.ofNat 13, Char.ofNat 10, Char.ofNat 13, Char.ofNat 10])
    ∧ (∀ (pairs : List (GoStr × Option Err)) (st : St),
        (initRun pairs st).2
          = ⟨st.writes ++ [escapeBytes (gs "\r\n")], true⟩)
    ∧ (∀ pairs : List (GoStr × Option Err), (∀ p ∈ pairs, p.2 = none) →
        initLoop pairs = (pairs.map Prod.fst, .ok))
    ∧ (∀ (pre : List (GoStr × Option Err)) (c : GoStr) (e : Err)
        (tl : List (GoStr × Option Err)), (∀ p ∈ pre, p.2 = none) →
        initLoop (pre ++ (c, some e) :: tl)
          = (pre.map Prod.fst ++ [c],
             if e = .deadlineExceeded then .deadline else .wrapped c e)) := by
  refine ⟨rfl, by decide, fun pairs st => rfl, ?_, ?_⟩
  · intro pairs h
    induction pairs with
    | nil => rfl
    | cons p tl ih =>
      obtain ⟨c, r⟩ := p
      have hr : r = none := h (c, r) (List.mem_cons_self _ _)
      subst hr
      simp only [initLoop, List.map_cons]
      rw [ih (fun q hq => h q (List.mem_cons_of_mem _ hq))]
  · intro pre c e tl hpre
    induction pre with
    | nil =>
      simp only [List.nil_append, initLoop, List.map_nil, List.nil_append]
      cases e <;> simp [initLoop]
    | cons p ptl ih =>
      obtain ⟨c', r⟩ := p
      have hr : r = none := hpre (c', r) (List.mem_cons_self _ _)
      subst hr
      simp only [List.cons_append, initLoop, List.map_cons, List.append_eq]
      rw [ih (fun q hq => hpre q (List.mem_cons_of_mem _ hq))]

theorem processSmsRxLine_writes (swe : Option Err) (lt : Rxl) (l sms : GoStr)
    (st : St) (x : Option GoStr × Bool × Option Err) (st2 : St)
    (h : processSmsRxLine swe lt l sms st = some (x, st2)) :
    ∃ new, st2.writes = st.writes ++ new ∧ ∀ w ∈ new, WriteShape w := by
  cases lt <;> simp only [processSmsRxLine] at h
  case unknown =>
    cases hg : l.getLast? with
    | none => simp [hg] at h
    | some c =>
      simp only [hg] at h
      have hst : st2 = st := by
        split at h <;>
          (simp only [Option.some.injEq, Prod.mk.injEq] at h; exact h.2.symm)
      exact ⟨[], by simp [hst]⟩
  case smsPrompt =>
    cases swe with
    | none =>
      simp only [Option.some.injEq, Prod.mk.injEq] at h
      refine ⟨[writeSMSBytes sms], ?_, ?_⟩
      · simp [← h.2]
      · intro w hw
        simp only [List.mem_singleton] at hw
        exact hw ▸ Or.inr (Or.inr (Or.inl ⟨sms, rfl⟩))
    | some e =>
      simp only [Option.some.injEq, Prod.mk.injEq] at h
      refine ⟨[writeSMSBytes sms, escapeBytes []], ?_, ?_⟩
      · simp [← h.2, escape]
      · intro w hw
        simp only [List.mem_cons, List.mem_singleton, List.not_mem_nil,
          or_false] at hw
        rcases hw with rfl | rfl
        · exact Or.inr (Or.inr (Or.inl ⟨sms, rfl⟩))
        · exact Or.inr (Or.inr (Or.inr ⟨[], rfl⟩))
  all_goals
    simp only [Option.some.injEq, Prod.mk.injEq] at h
  all_goals
    exact ⟨[], by simp [← h.2]⟩

theorem processSmsReqLoop_writes (sms : GoStr) (swe : Option Err)
    (cmdID : GoStr) (t : Int) :
    ∀ (evs : List Ev) (acc : List GoStr) (st : St),
    ∃ new, (processSmsReqLoop sms swe cmdID t acc st evs).2.writes
        = st.writes ++ new ∧ ∀ w ∈ new, WriteShape w := by
  intro evs
  induction evs with
  | nil => exact fun acc st => ⟨[], by simp [processSmsReqLoop]⟩
  | cons ev rest ih =>
    intro acc st
    cases ev with
    | expiry =>
      by_cases ht : 0 ≤ t
      · refine ⟨[escapeBytes []], ?_, ?_⟩
        · simp [processSmsReqLoop, ht, escape]
        · intro w hw
          simp only [List.mem_singleton] at hw
          exact hw ▸ Or.inr (Or.inr (Or.inr ⟨[], rfl⟩))
      · simpa [processSmsReqLoop, ht] using ih acc st
    | closedCh => exact ⟨[], by simp [processSmsReqLoop]⟩
    | line l =>
      by_cases hl : l = []
      · simpa [processSmsReqLoop, hl] using ih acc st
      · simp only [processSmsReqLoop, if_neg hl]
        cases hpl : processSmsRxLine swe (parseRxLine l cmdID) l sms st with
        | none => exact ⟨[], by simp⟩
        | some y =>
          obtain ⟨⟨i, done, perr⟩, st2⟩ := y
          obtain ⟨new1, hnew1, hshape1⟩ :=
            processSmsRxLine_writes swe (parseRxLine l cmdID) l sms st
              (i, done, perr) st2 hpl
          cases perr with
          | some e => exact ⟨new1, hnew1, hshape1⟩
          | none =>
            cases done with
            | true => exact ⟨new1, by simpa using hnew1, hshape1⟩
            | false =>
              cases i with
              | some s =>
                obtain ⟨new2, hnew2, hshape2⟩ := ih (acc ++ [s]) st2
                refine ⟨new1 ++ new2, ?_, ?_⟩
                · simp only [Bool.false_eq_true, if_false]
                  rw [hnew2, hnew1, List.append_assoc]
                · intro w hw
                  rcases List.mem_append.mp hw with h | h
                  · exact hshape1 w h
                  · exact hshape2 w h
              | none =>
                obtain ⟨new2, hnew2, hshape2⟩ := ih acc st2
                refine ⟨new1 ++ new2, ?_, ?_⟩
                · simp only [Bool.false_eq_true, if_false]
                  rw [hnew2, hnew1, List.append_assoc]
                · intro w hw
                  rcases List.mem_append.mp hw with h | h
                  · exact hshape1 w h
                  · exact hshape2 w h

/-- C8: the wire contract.  A plain command is written as `AT<cmd>\r\n`, the
SMS first stage as `AT<cmd>\r` (no LF), the SMS payload as `<payload>\x1A`,
an escape as `\x1B\r\n` plus the caller's extra bytes; and every write that
a request run or an escape appends to the transport log has one of those four
shapes. -/
theorem wire_contract_of_writes :
    (∀ cmd : GoStr, writeCommandBytes cmd
        = gs "AT" ++ cmd ++ [Char.ofNat 13, Char.ofNat 10])
    ∧ (∀ cmd : GoStr, writeSMSCommandBytes cmd = gs "AT" ++ cmd ++ [Char.ofNat 13])
    ∧ (∀ sms : GoStr, writeSMSBytes sms = sms ++ [Char.ofNat 26])
    ∧ (∀ extra : GoStr, escapeBytes extra
        = Char.ofNat 27 :: Char.ofNat 13 :: Char.ofNat 10 :: extra)
    ∧ (∀ (extra : GoStr) (st : St),
        (escape extra st).writes = st.writes ++ [escapeBytes extra])
    ∧ (∀ (cmd : GoStr) (wErr : Option Err) (t : Int) (evs : List Ev) (st : St),
        (processReq cmd wErr t evs st).2.writes
          = st.writes ++ [writeCommandBytes cmd])
    ∧ (∀ (cmd sms : GoStr) (wErr swe : Option Err) (t : Int) (evs : List Ev)
        (st : St),
        ∃ new, (processSmsReq cmd sms wErr swe t evs st).2.writes
          = st.writes ++ new ∧ ∀ w ∈ new, WriteShape w) := by
  refine ⟨fun cmd => rfl, fun cmd => rfl, fun sms => rfl, fun extra => rfl,
    fun extra st => rfl, ?_, ?_⟩
  · intro cmd wErr t evs st
    cases wErr <;> rfl
  · intro cmd sms wErr swe t evs st
    cases wErr with
    | some e =>
      refine ⟨[writeSMSCommandBytes cmd], rfl, ?_⟩
      intro w hw
      simp only [List.mem_singleton] at hw
      exact hw ▸ Or.inr (Or.inl ⟨cmd, rfl⟩)
    | none =>
      obtain ⟨new, hnew, hshape⟩ :=
        processSmsReqLoop_writes sms swe (parseCmdID cmd) t evs []
          ⟨st.writes ++ [writeSMSCommandBytes cmd], false⟩
      refine ⟨[writeSMSCommandBytes cmd] ++ new, ?_, ?_⟩
      · show (processSmsReqLoop sms swe (parseCmdID cmd) t []
            ⟨st.writes ++ [writeSMSCommandBytes cmd], false⟩ evs).2.writes = _
        rw [hnew, List.append_assoc]
      · intro w hw
        rcases List.mem_append.mp hw with h | h
        · simp only [List.mem_singleton] at h
          exact h ▸ Or.inr (Or.inl ⟨cmd, rfl⟩)
        · exact hshape w h

theorem scanInds_nomatch (tbl : List IndEntry) (line : GoStr)
    (h : tbl.filter (fun x => hasPref line x.pfx) = []) (input : List GoStr) :
    scanInds tbl line input = ([], some 0) := by
  induction tbl generalizing input with
  | nil => rfl
  | cons e tl ih =>
    rw [List.filter_cons] at h
    split at h
    · exact absurd h (by simp)
    · next hm =>
        simp only [scanInds]
        rw [if_neg (by simpa using hm)]
        exact ih h input

theorem scanInds_single (tbl : List IndEntry) (line : GoStr) (e : IndEntry)
    (input : List GoStr)
    (h : tbl.filter (fun x => hasPref line x.pfx) = [e])
    (hlen : e.trailing ≤ input.length) :
    scanInds tbl line input
      = ([(e.pfx, line :: input.take e.trailing)], some e.trailing) := by
  induction tbl generalizing input with
  | nil => simp at h
  | cons x tl ih =>
    rw [List.filter_cons] at h
    split at h
    · next hm =>
        simp only [List.cons.injEq] at h
        obtain ⟨rfl, htl⟩ := h
        simp only [scanInds]
        rw [if_pos (by simpa using hm), if_pos hlen,
          scanInds_nomatch tl line htl _]
        simp
    · next hm =>
        simp only [scanInds]
        rw [if_neg (by simpa using hm)]
        exact ih input h hlen

/-- C2 (amended): a line starting with exactly one registered prefix `P` with
trailing count `n` has `P`'s handler invoked exactly once with the bundle of
`1+n` elements (the line, then the next `n` raw input lines in wire order,
pulled without re-matching them against the table) — and the matched line is
then also forwarded to the command-processor lane (where an idle processor
discards it); a line matching no registered prefix is forwarded without any
handler invocation. -/
theorem indication_dispatch_and_forwarding :
    (∀ (tbl : List IndEntry) (line : GoStr) (rest : List GoStr) (e : IndEntry),
      tbl.filter (fun x => hasPref line x.pfx) = [e] → e.trailing ≤ rest.length →
      indLoopRun tbl (line :: rest)
        = ((e.pfx, line :: rest.take e.trailing)
              :: (indLoopRun tbl (rest.drop e.trailing)).1,
           line :: (indLoopRun tbl (rest.drop e.trailing)).2))
    ∧ (∀ (tbl : List IndEntry) (line : GoStr) (rest : List GoStr),
      tbl.filter (fun x => hasPref line x.pfx) = [] →
      indLoopRun tbl (line :: rest)
        = ((indLoopRun tbl rest).1, line :: (indLoopRun tbl rest).2)) := by
  constructor
  · intro tbl line rest e h hlen
    show indLoopGo tbl (line :: rest).length (line :: rest) = _
    simp only [List.length_cons, indLoopGo,
      scanInds_single tbl line e rest h hlen]
    have hfuel : indLoopGo tbl rest.length (rest.drop e.trailing)
        = indLoopGo tbl (rest.drop e.trailing).length (rest.drop e.trailing) :=
      indLoopGo_fuel tbl rest.length (rest.drop e.trailing).length
        (rest.drop e.trailing) (by simp [List.length_drop]) (le_refl _)
    rw [hfuel]
    rfl
  · intro tbl line rest h
    show indLoopGo tbl (line :: rest).length (line :: rest) = _
    simp only [List.length_cons, indLoopGo, scanInds_nomatch tbl line h rest]
    have hfuel : indLoopGo tbl rest.length (rest.drop 0)
        = indLoopGo tbl rest.length rest := by rw [List.drop_zero]
    rw [hfuel]
    rfl

/-- C2 counterexample: with prefix `"foo"` registered (no trailing lines),
the incoming line `foo: x` is delivered to the handler once — and is also
forwarded to the command-processor lane, contrary to the claim that a matched
line is not forwarded. -/
theorem matched_line_also_forwarded_cex :
    indLoopRun [⟨gs "foo", 0⟩] [gs "foo: x"]
      = ([(gs "foo", [gs "foo: x"])], [gs "foo: x"])
    ∧ (indLoopRun [⟨gs "foo", 0⟩] [gs "foo: x"]).2 ≠ [] := by decide

theorem processSmsRxLine_isSome (swe : Option Err) (lt : Rxl) (line sms : GoStr)
    (st : St) (h : line ≠ []) :
    (processSmsRxLine swe lt line sms st).isSome := by
  cases lt with
  | unknown =>
    cases hg : line.getLast? with
    | none => exact absurd (List.getLast?_eq_none_iff.mp hg) h
    | some c =>
      by_cases hc : (c = subChar ∧ hasPref line sms = true) <;>
        simp [processSmsRxLine, hg, hc]
  | smsPrompt => cases swe <;> simp [processSmsRxLine]
  | echoCmdLine => simp [processSmsRxLine]
  | info => simp [processSmsRxLine]
  | statusOK => simp [processSmsRxLine]
  | statusError => simp [processSmsRxLine]
  | async => simp [processSmsRxLine]
  | connect => simp [processSmsRxLine]
  | connectError => simp [processSmsRxLine]

/-- C9: the SMS request loop feeds `processSmsRxLine` only non-empty lines
(empty lines are skipped before classification), so the Ctrl-Z test
`line[len(line)-1]` never indexes into an empty string: no run of the SMS
state machine panics, over every input event sequence, and the full
`processSmsReq` is total as well. -/
theorem sms_echo_swallow_never_panics :
    ∀ (cmd sms : GoStr) (wErr swe : Option Err) (cmdID : GoStr) (t : Int)
      (acc : List GoStr) (st : St) (evs : List Ev),
    (processSmsReqLoop sms swe cmdID t acc st evs).1 ≠ .panicked
    ∧ (processSmsReq cmd sms wErr swe t evs st).1 ≠ .panicked := by
  have hloop : ∀ (sms : GoStr) (swe : Option Err) (cmdID : GoStr) (t : Int)
      (evs : List Ev) (acc : List GoStr) (st : St),
      (processSmsReqLoop sms swe cmdID t acc st evs).1 ≠ .panicked := by
    intro sms swe cmdID t evs
    induction evs with
    | nil => intro acc st; simp [processSmsReqLoop]
    | cons ev rest ih =>
      intro acc st
      cases ev with
      | expiry =>
        by_cases ht : 0 ≤ t
        · simp [processSmsReqLoop, ht]
        · simpa [processSmsReqLoop, ht] using ih acc st
      | closedCh => simp [processSmsReqLoop]
      | line l =>
        by_cases hl : l = []
        · simpa [processSmsReqLoop, hl] using ih acc st
        · simp only [processSmsReqLoop, if_neg hl]
          obtain ⟨y, hy⟩ := Option.isSome_iff_exists.mp
            (processSmsRxLine_isSome swe (parseRxLine l cmdID) l sms st hl)
          rw [hy]
          obtain ⟨⟨i, done, perr⟩, st2⟩ := y
          cases perr with
          | some e => simp
          | none =>
            cases done with
            | true => simp
            | false =>
              cases i with
              | some s => simpa using ih (acc ++ [s]) st2
              | none => simpa using ih acc st2
  intro cmd sms wErr swe cmdID t acc st evs
  refine ⟨hloop sms swe cmdID t evs acc st, ?_⟩
  cases wErr with
  | some e => simp [processSmsReq]
  | none => exact hloop sms swe (parseCmdID cmd) t evs [] _

theorem newError_ne_deadline (line : GoStr) :
    newError line ≠ some .deadlineExceeded := by
  unfold newError
  split_ifs <;> simp

theorem processRxLine_perr_ne_deadline (lt : Rxl) (line : GoStr) :
    (processRxLine lt line).2.2 ≠ some .deadlineExceeded := by
  cases lt <;> simp [processRxLine]
  exact newError_ne_deadline line

theorem processSmsRxLine_fst (swe : Option Err) (lt : Rxl) (l sms : GoStr)
    (st st' : St) :
    (processSmsRxLine swe lt l sms st).map Prod.fst
      = (processSmsRxLine swe lt l sms st').map Prod.fst := by
  cases lt with
  | unknown =>
    cases hg : l.getLast? with
    | none => simp [processSmsRxLine, hg]
    | some c =>
      by_cases hc : (c = subChar ∧ hasPref l sms = true) <;>
        simp [processSmsRxLine, hg, hc]
  | smsPrompt => cases swe <;> simp [processSmsRxLine]
  | echoCmdLine => simp [processSmsRxLine]
  | info => simp [processSmsRxLine]
  | statusOK => simp [processSmsRxLine]
  | statusError => simp [processSmsRxLine]
  | async => simp [processSmsRxLine]
  | connect => simp [processSmsRxLine]
  | connectError => simp [processSmsRxLine]

theorem processSmsRxLine_perr_ne_deadline (swe : Option Err) (lt : Rxl)
    (l sms : GoStr) (st : St) (hswe : swe ≠ some .deadlineExceeded)
    (i : Option GoStr) (done : Bool) (perr : Option Err) (st2 : St)
    (h : processSmsRxLine swe lt l sms st = some ((i, done, perr), st2)) :
    perr ≠ some .deadlineExceeded := by
  cases lt with
  | unknown =>
    cases hg : l.getLast? with
    | none => simp [processSmsRxLine, hg] at h
    | some c =>
      simp only [processSmsRxLine, hg] at h
      split at h <;>
        (simp only [Option.some.injEq, Prod.mk.injEq] at h
         rw [← h.1.2.2]; simp)
  | smsPrompt =>
    cases swe with
    | none =>
      simp only [processSmsRxLine, Option.some.injEq, Prod.mk.injEq] at h
      rw [← h.1.2.2]; simp
    | some e =>
      simp only [processSmsRxLine, Option.some.injEq, Prod.mk.injEq] at h
      rw [← h.1.2.2]
      simpa using hswe
  | echoCmdLine =>
    simp only [processSmsRxLine, Option.some.injEq, Prod.mk.injEq] at h
    have hp : (processRxLine .echoCmdLine l).2.2 = perr := by rw [h.1]
    rw [← hp]
    exact processRxLine_perr_ne_deadline _ l
  | info =>
    simp only [processSmsRxLine, Option.some.injEq, Prod.mk.injEq] at h
    have hp : (processRxLine .info l).2.2 = perr := by rw [h.1]
    rw [← hp]
    exact processRxLine_perr_ne_deadline _ l
  | statusOK =>
    simp only [processSmsRxLine, Option.some.injEq, Prod.mk.injEq] at h
    have hp : (processRxLine .statusOK l).2.2 = perr := by rw [h.1]
    rw [← hp]
    exact processRxLine_perr_ne_deadline _ l
  | statusError =>
    simp only [processSmsRxLine, Option.some.injEq, Prod.mk.injEq] at h
    have hp : (processRxLine .statusError l).2.2 = perr := by rw [h.1]
    rw [← hp]
    exact processRxLine_perr_ne_deadline _ l
  | async =>
    simp only [processSmsRxLine, Option.some.injEq, Prod.mk.injEq] at h
    have hp : (processRxLine .async l).2.2 = perr := by rw [h.1]
    rw [← hp]
    exact processRxLine_perr_ne_deadline _ l
  | connect =>
    simp only [processSmsRxLine, Option.some.injEq, Prod.mk.injEq] at h
    have hp : (processRxLine .connect l).2.2 = perr := by rw [h.1]
    rw [← hp]
    exact processRxLine_perr_ne_deadline _ l
  | connectError =>
    simp only [processSmsRxLine, Option.some.injEq, Prod.mk.injEq] at h
    have hp : (processRxLine .connectError l).2.2 = perr := by rw [h.1]
    rw [← hp]
    exact processRxLine_perr_ne_deadline _ l

theorem cmdExpiryResolves_nonneg (cmdID : GoStr) (t : Int) (evs : List Ev)
    (h : cmdExpiryResolves cmdID t evs = true) : 0 ≤ t := by
  induction evs with
  | nil => simp [cmdExpiryResolves] at h
  | cons ev rest ih =>
    cases ev with
    | expiry =>
      by_cases ht : 0 ≤ t
      · exact ht
      · rw [cmdExpiryResolves, if_neg ht] at h
        exact ih h
    | closedCh => simp [cmdExpiryResolves] at h
    | line l =>
      rw [cmdExpiryResolves] at h
      split at h
      · exact ih h
      · rcases hpr : processRxLine (parseRxLine l cmdID) l with ⟨i, done, perr⟩
        rw [hpr] at h
        dsimp only at h
        by_cases hc : (perr.isSome || done) = true
        · rw [if_pos hc] at h; simp at h
        · rw [if_neg hc] at h; exact ih h

theorem smsExpiryResolves_nonneg (sms : GoStr) (swe : Option Err)
    (cmdID : GoStr) (t : Int) (evs : List Ev)
    (h : smsExpiryResolves sms swe cmdID t evs = true) : 0 ≤ t := by
  induction evs with
  | nil => simp [smsExpiryResolves] at h
  | cons ev rest ih =>
    cases ev with
    | expiry =>
      by_cases ht : 0 ≤ t
      · exact ht
      · rw [smsExpiryResolves, if_neg ht] at h
        exact ih h
    | closedCh => simp [smsExpiryResolves] at h
    | line l =>
      rw [smsExpiryResolves] at h
      split at h
      · exact ih h
      · cases hpl : processSmsRxLine swe (parseRxLine l cmdID) l sms ⟨[], false⟩ with
        | none => rw [hpl] at h; simp at h
        | some y =>
          obtain ⟨⟨i, done, perr⟩, st2⟩ := y
          rw [hpl] at h
          dsimp only at h
          by_cases hc : (perr.isSome || done) = true
          · rw [if_pos hc] at h; simp at h
          · rw [if_neg hc] at h; exact ih h

theorem processReqLoop_deadline_iff (cmdID : GoStr) (t : Int) (evs : List Ev) :
    ∀ acc, isDeadlineRes (processReqLoop cmdID t acc evs) = true
      ↔ cmdExpiryResolves cmdID t evs = true := by
  induction evs with
  | nil => intro acc; simp [processReqLoop, cmdExpiryResolves, isDeadlineRes]
  | cons ev rest ih =>
    intro acc
    cases ev with
    | expiry =>
      by_cases ht : 0 ≤ t
      · simp [processReqLoop, cmdExpiryResolves, ht, isDeadlineRes]
      · rw [processReqLoop, if_neg ht, cmdExpiryResolves, if_neg ht]
        exact ih acc
    | closedCh => simp [processReqLoop, cmdExpiryResolves, isDeadlineRes]
    | line l =>
      by_cases hl : l = []
      · rw [processReqLoop, if_pos hl, cmdExpiryResolves, if_pos hl]
        exact ih acc
      · rw [processReqLoop, if_neg hl, cmdExpiryResolves, if_neg hl]
        rcases hpr : processRxLine (parseRxLine l cmdID) l with ⟨i, done, perr⟩
        cases perr with
        | some e =>
          have hne : e ≠ .deadlineExceeded := by
            have hd := processRxLine_perr_ne_deadline (parseRxLine l cmdID) l
            rw [hpr] at hd
            simpa using hd
          simp [isDeadlineRes, hne]
        | none =>
          cases done with
          | true => simp [isDeadlineRes]
          | false =>
            cases i with
            | some s => simpa using ih (acc ++ [s])
            | none => simpa using ih acc

theorem processSmsReqLoop_deadline_iff (sms : GoStr) (swe : Option Err)
    (cmdID : GoStr) (t : Int) (hswe : swe ≠ some .deadlineExceeded)
    (evs : List Ev) :
    ∀ (acc : List GoStr) (st : St),
    isDeadlineRes (processSmsReqLoop sms swe cmdID t acc st evs).1 = true
      ↔ smsExpiryResolves sms swe cmdID t evs = true := by
  induction evs with
  | nil =>
    intro acc st
    simp [processSmsReqLoop, smsExpiryResolves, isDeadlineRes]
  | cons ev rest ih =>
    intro acc st
    cases ev with
    | expiry =>
      by_cases ht : 0 ≤ t
      · simp [processSmsReqLoop, smsExpiryResolves, ht, isDeadlineRes]
      · rw [processSmsReqLoop, if_neg ht, smsExpiryResolves, if_neg ht]
        exact ih acc st
    | closedCh => simp [processSmsReqLoop, smsExpiryResolves, isDeadlineRes]
    | line l =>
      by_cases hl : l = []
      · rw [processSmsReqLoop, if_pos hl, smsExpiryResolves, if_pos hl]
        exact ih acc st
      · rw [processSmsReqLoop, if_neg hl, smsExpiryResolves, if_neg hl]
        cases hpl : processSmsRxLine swe (parseRxLine l cmdID) l sms st with
        | none =>
          have hd : processSmsRxLine swe (parseRxLine l cmdID) l sms ⟨[], false⟩
              = none := by
            have hf := processSmsRxLine_fst swe (parseRxLine l cmdID) l sms st
              ⟨[], false⟩
            rw [hpl] at hf
            exact Option.map_eq_none'.mp hf.symm
          rw [hd]
          simp [isDeadlineRes]
        | some y =>
          obtain ⟨⟨i, done, perr⟩, st2⟩ := y
          obtain ⟨st2', hd⟩ : ∃ st2',
              processSmsRxLine swe (parseRxLine l cmdID) l sms ⟨[], false⟩
                = some ((i, done, perr), st2') := by
            have hf := processSmsRxLine_fst swe (parseRxLine l cmdID) l sms st
              ⟨[], false⟩
            rw [hpl] at hf
            cases hq : processSmsRxLine swe (parseRxLine l cmdID) l sms
                ⟨[], false⟩ with
            | none => rw [hq] at hf; simp at hf
            | some z =>
              obtain ⟨tr, stz⟩ := z
              rw [hq] at hf
              simp only [Option.map_some'] at hf
              have htr : (i, done, perr) = tr := by
                injection hf with hf2
              exact ⟨stz, by rw [← htr]⟩
          rw [hd]
          dsimp only
          cases perr with
          | some e =>
            have hne : e ≠ .deadlineExceeded :=
              fun hc => processSmsRxLine_perr_ne_deadline swe
                (parseRxLine l cmdID) l sms st hswe i done (some e) st2 hpl
                (by rw [hc])
            simp [isDeadlineRes, hne]
          | none =>
            cases done with
            | true => simp [isDeadlineRes]
            | false =>
              simp only [Option.isSome_none, Bool.false_or, Bool.false_eq_true,
                if_false]
              cases i with
              | some s => exact ih (acc ++ [s]) st2
              | none => exact ih acc st2

/-- C10: a request resolves with `ErrDeadlineExceeded` exactly when the
command write succeeded, the effective timeout is non-negative (only then is
an expiry timer created — a negative timeout leaves the timer channel nil,
so no deadline is ever reported), and the timer fires before any terminating
line, error or closure; for both `Command` and `SMSCommand`. -/
theorem deadline_iff_timer_expiry :
    ∀ (cmd sms : GoStr) (wErr swe : Option Err) (t : Int) (evs : List Ev)
      (st : St),
    wErr ≠ some .deadlineExceeded → swe ≠ some .deadlineExceeded →
    ((isDeadlineRes (processReq cmd wErr t evs st).1 = true
        ↔ wErr = none ∧ 0 ≤ t ∧ cmdExpiryResolves (parseCmdID cmd) t evs = true)
     ∧ (isDeadlineRes (processSmsReq cmd sms wErr swe t evs st).1 = true
        ↔ wErr = none ∧ 0 ≤ t
            ∧ smsExpiryResolves sms swe (parseCmdID cmd) t evs = true)) := by
  intro cmd sms wErr swe t evs st hw hs
  constructor
  · cases wErr with
    | some e =>
      have he : e ≠ .deadlineExceeded := fun hc => hw (by rw [hc])
      simp [processReq, isDeadlineRes, he]
    | none =>
      have hred : (processReq cmd none t evs st).1
          = processReqLoop (parseCmdID cmd) t [] evs := rfl
      rw [hred, processReqLoop_deadline_iff]
      constructor
      · intro h
        exact ⟨rfl, cmdExpiryResolves_nonneg (parseCmdID cmd) t evs h, h⟩
      · intro h
        exact h.2.2
  · cases wErr with
    | some e =>
      have he : e ≠ .deadlineExceeded := fun hc => hw (by rw [hc])
      simp [processSmsReq, isDeadlineRes, he]
    | none =>
      have hred : (processSmsReq cmd sms none swe t evs st).1
          = (processSmsReqLoop sms swe (parseCmdID cmd) t []
              ⟨st.writes ++ [writeSMSCommandBytes cmd], false⟩ evs).1 := rfl
      rw [hred, processSmsReqLoop_deadline_iff sms swe (parseCmdID cmd) t hs evs]
      constructor
      · intro h
        exact ⟨rfl, smsExpiryResolves_nonneg sms swe (parseCmdID cmd) t evs h, h⟩
      · intro h
        exact h.2.2

/-- C10 witness: with timeout 5 and an expiry event, both request forms
report `ErrDeadlineExceeded`. -/
theorem deadline_iff_timer_expiry_witness :
    ((isDeadlineRes (processReq (gs "X") none 5 [.expiry] ⟨[], false⟩).1 = true
        ↔ (none : Option Err) = none ∧ (0 : Int) ≤ 5
            ∧ cmdExpiryResolves (parseCmdID (gs "X")) 5 [.expiry] = true)
     ∧ (isDeadlineRes
          (processSmsReq (gs "X") (gs "p") none none 5 [.expiry] ⟨[], false⟩).1
            = true
        ↔ (none : Option Err) = none ∧ (0 : Int) ≤ 5
            ∧ smsExpiryResolves (gs "p") none (parseCmdID (gs "X")) 5 [.expiry]
                = true)) :=
  deadline_iff_timer_expiry (gs "X") (gs "p") none none 5 [.expiry] ⟨[], false⟩
    (by decide) (by decide)

theorem processSmsRxLine_deadline_escape (swe : Option Err) (lt : Rxl)
    (l sms : GoStr) (st : St) (i : Option GoStr) (done : Bool) (st2 : St)
    (h : processSmsRxLine swe lt l sms st
        = some ((i, done, some .deadlineExceeded), st2)) :
    ∃ pre, st2.writes = pre ++ [escapeBytes []] ∧ st2.guard = true := by
  cases lt with
  | unknown =>
    cases hg : l.getLast? with
    | none => simp [processSmsRxLine, hg] at h
    | some c =>
      simp only [processSmsRxLine, hg] at h
      split at h <;> simp at h
  | smsPrompt =>
    cases swe with
    | none => simp [processSmsRxLine] at h
    | some e =>
      simp only [processSmsRxLine, Option.some.injEq, Prod.mk.injEq] at h
      refine ⟨(st.writes ++ [writeSMSBytes sms]), ?_, ?_⟩
      · rw [← h.2]; rfl
      · rw [← h.2]; rfl
  | echoCmdLine =>
    simp only [processSmsRxLine, Option.some.injEq, Prod.mk.injEq] at h
    exact absurd (congrArg (fun x => x.2.2) h.1)
      (by simpa using processRxLine_perr_ne_deadline .echoCmdLine l)
  | info =>
    simp only [processSmsRxLine, Option.some.injEq, Prod.mk.injEq] at h
    exact absurd (congrArg (fun x => x.2.2) h.1)
      (by simpa using processRxLine_perr_ne_deadline .info l)
  | statusOK =>
    simp only [processSmsRxLine, Option.some.injEq, Prod.mk.injEq] at h
    exact absurd (congrArg (fun x => x.2.2) h.1)
      (by simpa using processRxLine_perr_ne_deadline .statusOK l)
  | statusError =>
    simp only [processSmsRxLine, Option.some.injEq, Prod.mk.injEq] at h
    exact absurd (congrArg (fun x => x.2.2) h.1)
      (by simpa using processRxLine_perr_ne_deadline .statusError l)
  | async =>
    simp only [processSmsRxLine, Option.some.injEq, Prod.mk.injEq] at h
    exact absurd (congrArg (fun x => x.2.2) h.1)
      (by simpa using processRxLine_perr_ne_deadline .async l)
  | connect =>
    simp only [processSmsRxLine, Option.some.injEq, Prod.mk.injEq] at h
    exact absurd (congrArg (fun x => x.2.2) h.1)
      (by simpa using processRxLine_perr_ne_deadline .connect l)
  | connectError =>
    simp only [processSmsRxLine, Option.some.injEq, Prod.mk.injEq] at h
    exact absurd (congrArg (fun x => x.2.2) h.1)
      (by simpa using processRxLine_perr_ne_deadline .connectError l)

theorem processSmsReqLoop_deadline_escape (sms : GoStr) (swe : Option Err)
    (cmdID : GoStr) (t : Int) :
    ∀ (evs : List Ev) (acc : List GoStr) (st : St) (r : Resp),
    (processSmsReqLoop sms swe cmdID t acc st evs).1 = .resolved r →
    r.err = some .deadlineExceeded →
    ∃ pre, (processSmsReqLoop sms swe cmdID t acc st evs).2.writes
        = pre ++ [escapeBytes []]
      ∧ (processSmsReqLoop sms swe cmdID t acc st evs).2.guard = true := by
  intro evs
  induction evs with
  | nil => intro acc st r h _; simp [processSmsReqLoop] at h
  | cons ev rest ih =>
    intro acc st r h herr
    cases ev with
    | expiry =>
      by_cases ht : 0 ≤ t
      · rw [processSmsReqLoop, if_pos ht]
        exact ⟨st.writes, rfl, rfl⟩
      · rw [processSmsReqLoop, if_neg ht] at h ⊢
        exact ih acc st r h herr
    | closedCh =>
      rw [processSmsReqLoop] at h
      simp only [LoopRes.resolved.injEq] at h
      rw [← h] at herr
      simp at herr
    | line l =>
      by_cases hl : l = []
      · rw [processSmsReqLoop, if_pos hl] at h ⊢
        exact ih acc st r h herr
      · rw [processSmsReqLoop, if_neg hl] at h ⊢
        cases hpl : processSmsRxLine swe (parseRxLine l cmdID) l sms st with
        | none => rw [hpl] at h; simp at h
        | some y =>
          obtain ⟨⟨i, done, perr⟩, st2⟩ := y
          rw [hpl] at h
          dsimp only at h ⊢
          cases perr with
          | some e =>
            simp only [LoopRes.resolved.injEq] at h
            rw [← h] at herr
            simp only [Option.some.injEq] at herr
            rw [herr] at hpl
            exact processSmsRxLine_deadline_escape swe (parseRxLine l cmdID)
              l sms st i done st2 hpl
          | none =>
            cases done with
            | true =>
              simp only [if_true] at h
              simp only [LoopRes.resolved.injEq] at h
              rw [← h] at herr
              simp at herr
            | false =>
              simp only [Bool.false_eq_true, if_false] at h ⊢
              cases i with
              | some s => exact ih (acc ++ [s]) st2 r h herr
              | none => exact ih acc st2 r h herr

/-- C4: when an `SMSCommand` resolves with `ErrDeadlineExceeded` (whichever
stage was being awaited), the last transport write is the cancel-escape
`\x1B\r\n` and the escape guard is armed; a plain `Command` run never writes
anything beyond its command line and never arms the guard. -/
theorem sms_deadline_escape_command_none :
    ∀ (cmd sms : GoStr) (wErr swe : Option Err) (t : Int) (evs : List Ev)
      (st : St) (r : Resp),
    wErr ≠ some .deadlineExceeded →
    (((processSmsReq cmd sms wErr swe t evs st).1 = .resolved r →
        r.err = some .deadlineExceeded →
        ∃ pre, (processSmsReq cmd sms wErr swe t evs st).2.writes
            = pre ++ [escapeBytes []]
          ∧ (processSmsReq cmd sms wErr swe t evs st).2.guard = true)
     ∧ (processReq cmd wErr t evs st).2
          = ⟨st.writes ++ [writeCommandBytes cmd], false⟩) := by
  intro cmd sms wErr swe t evs st r hw
  constructor
  · cases wErr with
    | some e =>
      intro h herr
      simp only [processSmsReq, LoopRes.resolved.injEq] at h
      rw [← h] at herr
      simp only [Option.some.injEq] at herr
      exact absurd (by rw [herr]) hw
    | none =>
      intro h herr
      exact processSmsReqLoop_deadline_escape sms swe (parseCmdID cmd) t evs []
        ⟨st.writes ++ [writeSMSCommandBytes cmd], false⟩ r h herr
  · cases wErr <;> rfl

/-- C4 witness: an SMS deadline expiry ends with the escape written and the
guard armed, while the command run leaves only the command write. -/
theorem sms_deadline_escape_command_none_witness :
    (((processSmsReq (gs "SMS") (gs "p") none none 5 [.expiry] ⟨[], false⟩).1
          = .resolved ⟨[], some .deadlineExceeded⟩ →
        (⟨[], some .deadlineExceeded⟩ : Resp).err = some .deadlineExceeded →
        ∃ pre, (processSmsReq (gs "SMS") (gs "p") none none 5 [.expiry]
            ⟨[], false⟩).2.writes = pre ++ [escapeBytes []]
          ∧ (processSmsReq (gs "SMS") (gs "p") none none 5 [.expiry]
              ⟨[], false⟩).2.guard = true)
     ∧ (processReq (gs "SMS") none 5 [.expiry] ⟨[], false⟩).2
          = ⟨[] ++ [writeCommandBytes (gs "SMS")], false⟩) :=
  sms_deadline_escape_command_none (gs "SMS") (gs "p") none none 5 [.expiry]
    ⟨[], false⟩ ⟨[], some .deadlineExceeded⟩ (by decide)

theorem parseRxLine_OK (cmdID : GoStr) : parseRxLine (gs "OK") cmdID = .statusOK := by
  unfold parseRxLine
  rw [if_pos rfl]

theorem processReqLoop_OK (cmdID : GoStr) (t : Int) (acc : List GoStr) :
    processReqLoop cmdID t acc [.line (gs "OK")] = .resolved ⟨acc, none⟩ := by
  rw [processReqLoop, if_neg (by decide : ¬(gs "OK" = ([] : GoStr))),
    parseRxLine_OK]
  simp [processRxLine]

/-- The last two steps of the round-trip: a line `L2` then `OK`, starting from
accumulated `acc`.  Either `L2` is appended and the run succeeds, or the run
resolves with `acc` untouched (successfully or with an error). -/
theorem processReqLoop_tail2 (cmdID : GoStr) (t : Int) (acc : List GoStr)
    (L2 : GoStr) :
    (processReqLoop cmdID t acc [.line L2, .line (gs "OK")]
        = .resolved ⟨acc ++ [L2], none⟩
      ∧ L2 ≠ [] ∧ (parseRxLine L2 cmdID = .info ∨ parseRxLine L2 cmdID = .unknown
          ∨ parseRxLine L2 cmdID = .connect))
    ∨ processReqLoop cmdID t acc [.line L2, .line (gs "OK")] = .resolved ⟨acc, none⟩
    ∨ ∃ e, processReqLoop cmdID t acc [.line L2, .line (gs "OK")]
        = .resolved ⟨acc, some e⟩ := by
  by_cases h2 : L2 = []
  · right; left
    rw [processReqLoop, if_pos h2, processReqLoop_OK]
  · cases hc : parseRxLine L2 cmdID with
    | info =>
      left
      refine ⟨?_, h2, Or.inl rfl⟩
      rw [processReqLoop, if_neg h2, hc]
      dsimp only [processRxLine]
      rw [processReqLoop_OK]
      simp
    | unknown =>
      left
      refine ⟨?_, h2, Or.inr (Or.inl rfl)⟩
      rw [processReqLoop, if_neg h2, hc]
      dsimp only [processRxLine]
      rw [processReqLoop_OK]
      simp
    | connect =>
      left
      refine ⟨?_, h2, Or.inr (Or.inr rfl)⟩
      rw [processReqLoop, if_neg h2, hc]
      simp [processRxLine]
    | statusOK =>
      right; left
      rw [processReqLoop, if_neg h2, hc]
      simp [processRxLine]
    | statusError =>
      rw [processReqLoop, if_neg h2, hc]
      dsimp only [processRxLine]
      cases hne : newError L2 with
      | none =>
        right; left
        rw [processReqLoop_OK]
        simp
      | some e =>
        right; right
        exact ⟨e, rfl⟩
    | connectError =>
      right; right
      refine ⟨.connectError L2, ?_⟩
      rw [processReqLoop, if_neg h2, hc]
      simp [processRxLine]
    | echoCmdLine =>
      right; left
      rw [processReqLoop, if_neg h2, hc]
      dsimp only [processRxLine]
      rw [processReqLoop_OK]
      simp
    | smsPrompt =>
      right; left
      rw [processReqLoop, if_neg h2, hc]
      dsimp only [processRxLine]
      rw [processReqLoop_OK]
      simp
    | async =>
      right; left
      rw [processReqLoop, if_neg h2, hc]
      dsimp only [processRxLine]
      rw [processReqLoop_OK]
      simp

/-- C5 (amended): `Command(cmd)` against a device answering `L1`, `L2`, `OK`
returns info `[L1, L2]` with no error exactly when `L1` is a non-empty line
classified `Info` or `Unknown` and `L2` is a non-empty line classified
`Info`, `Unknown` or (for dial commands) `Connect`. -/
theorem roundtrip_info_iff :
    ∀ (cmd : GoStr) (t : Int) (L1 L2 : GoStr) (st : St),
    (processReq cmd none t [.line L1, .line L2, .line (gs "OK")] st).1
        = .resolved ⟨[L1, L2], none⟩
    ↔ ((L1 ≠ [] ∧ (parseRxLine L1 (parseCmdID cmd) = .info
          ∨ parseRxLine L1 (parseCmdID cmd) = .unknown))
       ∧ (L2 ≠ [] ∧ (parseRxLine L2 (parseCmdID cmd) = .info
          ∨ parseRxLine L2 (parseCmdID cmd) = .unknown
          ∨ parseRxLine L2 (parseCmdID cmd) = .connect))) := by
  intro cmd t L1 L2 st
  have hred : (processReq cmd none t [.line L1, .line L2, .line (gs "OK")] st).1
      = processReqLoop (parseCmdID cmd) t [] [.line L1, .line L2, .line (gs "OK")] :=
    rfl
  rw [hred]
  constructor
  · intro h
    by_cases h1 : L1 = []
    · exfalso
      rw [processReqLoop, if_pos h1] at h
      rcases processReqLoop_tail2 (parseCmdID cmd) t [] L2 with ⟨he, _⟩ | he | ⟨e, he⟩ <;>
        rw [he] at h <;> simp at h
    · rw [processReqLoop, if_neg h1] at h
      cases hc1 : parseRxLine L1 (parseCmdID cmd) with
      | info =>
        rw [hc1] at h
        dsimp only [processRxLine] at h
        simp only [Bool.false_eq_true, if_false, List.nil_append] at h
        rcases processReqLoop_tail2 (parseCmdID cmd) t [L1] L2
            with ⟨he, hcond⟩ | he | ⟨e, he⟩ <;> rw [he] at h
        · exact ⟨⟨h1, Or.inl rfl⟩, hcond⟩
        · simp at h
        · simp at h
      | unknown =>
        rw [hc1] at h
        dsimp only [processRxLine] at h
        simp only [Bool.false_eq_true, if_false, List.nil_append] at h
        rcases processReqLoop_tail2 (parseCmdID cmd) t [L1] L2
            with ⟨he, hcond⟩ | he | ⟨e, he⟩ <;> rw [he] at h
        · exact ⟨⟨h1, Or.inr rfl⟩, hcond⟩
        · simp at h
        · simp at h
      | statusOK =>
        rw [hc1] at h
        dsimp only [processRxLine] at h
        simp at h
      | statusError =>
        rw [hc1] at h
        dsimp only [processRxLine] at h
        cases hne : newError L1 with
        | none =>
          rw [hne] at h
          dsimp only at h
          simp only [Bool.false_eq_true, if_false] at h
          rcases processReqLoop_tail2 (parseCmdID cmd) t [] L2
              with ⟨he, _⟩ | he | ⟨e, he⟩ <;> rw [he] at h <;> simp at h
        | some e =>
          rw [hne] at h
          simp at h
      | connect =>
        rw [hc1] at h
        dsimp only [processRxLine] at h
        simp at h
      | connectError =>
        rw [hc1] at h
        dsimp only [processRxLine] at h
        simp at h
      | echoCmdLine =>
        rw [hc1] at h
        dsimp only [processRxLine] at h
        simp only [Bool.false_eq_true, if_false] at h
        rcases processReqLoop_tail2 (parseCmdID cmd) t [] L2
            with ⟨he, _⟩ | he | ⟨e, he⟩ <;> rw [he] at h <;> simp at h
      | smsPrompt =>
        rw [hc1] at h
        dsimp only [processRxLine] at h
        simp only [Bool.false_eq_true, if_false] at h
        rcases processReqLoop_tail2 (parseCmdID cmd) t [] L2
            with ⟨he, _⟩ | he | ⟨e, he⟩ <;> rw [he] at h <;> simp at h
      | async =>
        rw [hc1] at h
        dsimp only [processRxLine] at h
        simp only [Bool.false_eq_true, if_false] at h
        rcases processReqLoop_tail2 (parseCmdID cmd) t [] L2
            with ⟨he, _⟩ | he | ⟨e, he⟩ <;> rw [he] at h <;> simp at h
  · rintro ⟨⟨h1, hc1⟩, h2, hc2⟩
    rw [processReqLoop, if_neg h1]
    have happ : processReqLoop (parseCmdID cmd) t [L1] [.line L2, .line (gs "OK")]
        = .resolved ⟨[L1, L2], none⟩ := by
      rcases hc2 with hc2 | hc2 | hc2 <;> rw [processReqLoop, if_neg h2, hc2] <;>
        dsimp only [processRxLine] <;>
        first
          | (rw [processReqLoop_OK]; simp)
          | simp
    rcases hc1 with hc1 | hc1 <;> rw [hc1] <;> dsimp only [processRxLine] <;>
      simpa using happ

/-- C5 counterexample: with command `X`, `L1 = ">"` and `L2 = "a"`, neither
line is a status line (`StatusOK`/`StatusError`), yet the round trip returns
info `["a"]`, not `[">", "a"]`: the claim's iff condition is too weak. -/
theorem roundtrip_nonstatus_cex :
    (parseRxLine (gs ">") (parseCmdID (gs "X")) ≠ .statusOK
      ∧ parseRxLine (gs ">") (parseCmdID (gs "X")) ≠ .statusError)
    ∧ (parseRxLine (gs "a") (parseCmdID (gs "X")) ≠ .statusOK
      ∧ parseRxLine (gs "a") (parseCmdID (gs "X")) ≠ .statusError)
    ∧ (processReq (gs "X") none 1000
        [.line (gs ">"), .line (gs "a"), .line (gs "OK")] ⟨[], false⟩).1
        = .resolved ⟨[gs "a"], none⟩
    ∧ (LoopRes.resolved ⟨[gs "a"], none⟩)
        ≠ .resolved ⟨[gs ">", gs "a"], none⟩ := by decide

end ATDriver
